import Mathlib

/-!
Shallow embedding of `metadata-classification/data_loader.py` from the
text2uml repository, together with theorems settling the specification
claims about it.

Conventions used throughout:

* Python floats are modelled as rationals (`ℚ`), so that `np.average`
  (the arithmetic mean) is exact.
* Python exceptions are modelled by the `PyError` type; fallible code
  returns `Except PyError _` (or an explicit result sum).
* The parsed JSON dataset is modelled as an association list from document
  identifiers to `Doc` records (Python dicts preserve insertion order).
* `numpy` helpers (`np.transpose`, `np.unique`, element reductions) are
  modelled by executable Lean functions that agree with numpy on the
  inputs the source feeds them (rectangular, non-empty arrays for
  `np.transpose`; `np.unique` returns the sorted deduplicated elements).
* Python strings are `String`, except in `GeneralEncoder.get_embedding_dir`
  where the character-level computation of `str.split` is modelled over
  `List Char` (a Lean `String` is exactly a packed `List Char`).
-/

/-- Python exception values raised (or discussed by the spec) for
`data_loader.py`. -/
inductive PyError where
  | valueError (msg : String)
  | notImplementedError (msg : String)
  | indexError (msg : String)
deriving DecidableEq

/-- Message of the `ValueError` raised by the abstract `GeneralEncoder`
methods `get_embedder` and `create_embedding`. -/
def implMsg : String := "This function should be implemented in the children encoders"

/-- Message of the `ValueError` raised by `DataLoader.apply_pooling.pooling`
for an unsupported technique (the quote characters that the original message
puts around the keyword names are elided here). -/
def poolMsg : String := "This pooling technique has not been implemented. Please only use min, max or average as keywords."

/-- `raisesNotImplementedError e` holds when the computation `e` raised a
Python `NotImplementedError`. -/
def raisesNotImplementedError {α : Type} : Except PyError α → Bool
  | .error (.notImplementedError _) => true
  | _ => false

/-- `raisesValueError e` holds when the computation `e` raised a Python
`ValueError`. -/
def raisesValueError {α : Type} : Except PyError α → Bool
  | .error (.valueError _) => true
  | _ => false

/-- One document of the input JSON dataset: a `lang` tag and optional
`classes` / `attributes` name lists (the Python code tests key presence
with `'classes' in metadata.keys()`, hence `Option`). -/
structure Doc where
  lang : String
  classes : Option (List String)
  attributes : Option (List String)
deriving DecidableEq

/-- `DataLoader.get_cleaned_data`: keep exactly the documents whose `lang`
field equals `"__label__en"` (the file-reading part is elided; the function
is applied to the parsed JSON dictionary). -/
def get_cleaned_data (data : List (String × Doc)) : List (String × Doc) :=
  data.filter fun p => p.2.lang == "__label__en"

/-- Claim-side variant, following the spec sentence word for word: keep the
documents whose `lang` equals `"en"`.  Used only to compare against
`get_cleaned_data`. -/
def cleanedSpecEn (data : List (String × Doc)) : List (String × Doc) :=
  data.filter fun p => p.2.lang == "en"

/-- Executable lexicographic comparison of two character lists by code
point: Python's `<` on strings.  (Kept in explicit `Nat` arithmetic so
that concrete instances evaluate inside the kernel.) -/
def charListLt : List Char → List Char → Bool
  | _, [] => false
  | [], _ :: _ => true
  | c :: cs, d :: ds =>
    if c.toNat < d.toNat then true
    else if d.toNat < c.toNat then false
    else charListLt cs ds

/-- Executable Python string comparison `x < y`. -/
def strLt (x y : String) : Bool := charListLt x.data y.data

/-- Insert a string into a strictly sorted list, skipping it when already
present (helper for the model of `np.unique`). -/
def insertUnique (x : String) : List String → List String
  | [] => [x]
  | y :: ys =>
    if strLt x y then x :: y :: ys
    else if x == y then y :: ys
    else y :: insertUnique x ys

/-- Model of `np.unique` on a one-dimensional array of strings: the sorted
(lexicographically, by code point — Python string order) list of distinct
elements. -/
def npUnique (l : List String) : List String := l.foldr insertUnique []

/-- `DataLoader.get_df_from_data`: gather the `classes` lists of all
documents and the `attributes` lists of all documents, flatten each,
apply `np.unique`, tag and concatenate.  The dataframe is modelled as a
list of `(name, type)` rows. -/
def get_df_from_data (data : List (String × Doc)) : List (String × String) :=
  (npUnique ((data.filterMap fun p => p.2.classes).flatten)).map (fun x => (x, "class"))
    ++ (npUnique ((data.filterMap fun p => p.2.attributes).flatten)).map (fun x => (x, "attribute"))

/-- The document of the spec's worked example. -/
def exampleDoc : Doc := ⟨"__label__en", some ["Car", "Car", "Bike"], some ["speed"]⟩

/-- The input JSON of the spec's worked example. -/
def exampleData : List (String × Doc) := [("a", exampleDoc)]

/-- Input in which the same name occurs both as a class and as an
attribute. -/
def dataBoth : List (String × Doc) :=
  [("a", ⟨"__label__en", some ["speed"], some ["speed"]⟩)]

/-- Input with a single document whose `lang` tag is the plain string
`"en"`. -/
def dataEn : List (String × Doc) := [("a", ⟨"en", some ["Car"], none⟩)]

/-- Input with a single document whose `lang` tag is `"__label__en"`. -/
def dataLbl : List (String × Doc) := [("b", ⟨"__label__en", some ["Car"], none⟩)]

/-- Model of `np.transpose` on a rectangular two-dimensional array, given
as a list of rows: column `d` of the result collects entry `d` of every
row.  (On the rectangular arrays the source builds, this is exactly
numpy's transpose.) -/
def npTranspose (m : List (List ℚ)) : List (List ℚ) :=
  (List.range (m.headD []).length).map fun d => m.map fun row => row.getD d 0

/-- `np.max` of a one-dimensional array (`token_row.max()` / `row.max()`);
only ever applied to non-empty rows by the source (numpy errors on an
empty one). -/
def reduceMax : List ℚ → ℚ
  | [] => 0
  | x :: xs => xs.foldl max x

/-- `np.min` of a one-dimensional array; only ever applied to non-empty
rows by the source. -/
def reduceMin : List ℚ → ℚ
  | [] => 0
  | x :: xs => xs.foldl min x

/-- `np.average` of a one-dimensional array: the arithmetic mean. -/
def npAverage (l : List ℚ) : ℚ := l.sum / l.length

/-- Common shape of the three branches of `DataLoader.apply_pooling.pooling`,
which differ only in the reduction operator `op`: with more than one
sentence, reduce per dimension inside every sentence, then reduce the
per-sentence vectors per dimension; otherwise reduce `vector[0]` per
dimension (Python's `vector[0]` raises `IndexError` on an empty list). -/
def poolWith (op : List ℚ → ℚ) (vector : List (List (List ℚ))) : Except PyError (List ℚ) :=
  if 1 < vector.length then
    .ok ((npTranspose (vector.map fun sentence => (npTranspose sentence).map op)).map op)
  else
    match vector with
    | [] => .error (.indexError "list index out of range")
    | v0 :: _ => .ok ((npTranspose v0).map op)

/-- `DataLoader.apply_pooling.pooling`: dispatch on the technique name;
`max` and `min` use the element extremum, `average` the arithmetic mean,
anything else raises a `ValueError`. -/
def pooling (technique : String) (vector : List (List (List ℚ))) : Except PyError (List ℚ) :=
  if technique = "max" then poolWith reduceMax vector
  else if technique = "min" then poolWith reduceMin vector
  else if technique = "average" then poolWith npAverage vector
  else .error (.valueError poolMsg)

/-- Claim-side reduction operator named by a pooling technique. -/
def specReduce (technique : String) (l : List ℚ) : ℚ :=
  if technique = "max" then reduceMax l
  else if technique = "min" then reduceMin l
  else npAverage l

/-- Claim-side pooling semantics, transcribed from the specification text:
with exactly one sentence, `result[d]` is the reduction over all tokens'
value at dimension `d`; with several sentences, `result[d]` is the
reduction over the per-sentence reductions at dimension `d`, with the same
operator at both stages. -/
def specPooling (technique : String) (vector : List (List (List ℚ))) : List ℚ :=
  (List.range ((vector.headD []).headD []).length).map fun d =>
    if vector.length = 1 then
      specReduce technique ((vector.headD []).map fun t => t.getD d 0)
    else
      specReduce technique (vector.map fun s => specReduce technique (s.map fun t => t.getD d 0))

/-- A dataframe row before pooling: name, type, and the raw embedding
(sentences of token vectors). -/
structure RawRow where
  name : String
  type : String
  embedding : List (List (List ℚ))
deriving DecidableEq

/-- A dataframe row after pooling: the embedding has been replaced by a
single vector. -/
structure PooledRow where
  name : String
  type : String
  embedding : List ℚ
deriving DecidableEq

/-- Outcome of `DataLoader.apply_pooling.init`: either the pooled table, or
an error together with the untouched input table (the Python assignment
`df.embedding = ...` only happens after the column map finished without
raising, so on error the dataframe is left as it was). -/
inductive PoolResult where
  | ok (rows : List PooledRow)
  | err (rows : List RawRow) (e : PyError)
deriving DecidableEq

/-- The column map `df.embedding.progress_apply(pooling)`: apply `pooling`
to every row's embedding, left to right, stopping at the first raised
error. -/
def poolColumn (technique : String) : List RawRow → Except PyError (List PooledRow)
  | [] => .ok []
  | r :: rs =>
    match pooling technique r.embedding with
    | .error e => .error e
    | .ok p =>
      match poolColumn technique rs with
      | .error e => .error e
      | .ok ps => .ok (⟨r.name, r.type, p⟩ :: ps)

/-- `DataLoader.apply_pooling`: map `pooling` over the embedding column and
assign the result; an error raised during the map leaves the table
unmodified. -/
def apply_pooling (technique : String) (df : List RawRow) : PoolResult :=
  match poolColumn technique df with
  | .ok rows => .ok rows
  | .error e => .err df e

/-- Result of `GeneralEncoder.get_embedded_dataset`: the returned table,
the cache state afterwards, how many per-row embedding computations ran,
and whether a backend model was built (`get_embedder` called). -/
structure EncodeResult (Emb : Type) where
  table : List (String × String × Emb)
  state : List (String × List (String × String × Emb))
  embedCalls : Nat
  builtModel : Bool
deriving DecidableEq

/-- `GeneralEncoder.get_embedded_dataset` / its inner `encode_datasets`.
The cache is an association list from directory names to the table stored
in that directory's `data.pkl` (an intact artifact).  `dirFn` is the
dynamically dispatched `get_embedding_dir`, `embedFn` the per-name
embedding computation (`create_embedding` with the built embedder).  On a
cache hit the stored table is returned with no model built and no
embedding computed; on a miss the embedding column is computed for every
row and, when `save` is set, the artifact is written. -/
def get_embedded_dataset {Emb : Type} (dirFn : String → String) (embedFn : String → Emb)
    (embedding : String) (df : List (String × String))
    (st : List (String × List (String × String × Emb))) (save : Bool) : EncodeResult Emb :=
  let dir := dirFn embedding
  match st.lookup dir with
  | some stored => ⟨stored, st, 0, false⟩
  | none =>
    let newT := df.map fun r => (r.1, r.2, embedFn r.1)
    ⟨newT, if save then (dir, newT) :: st else st, df.length, true⟩

/-- The embedder object built by `FlairEncoder.get_embedder`: either a
Huggingface model/tokenizer pair (each a class name together with the
checkpoint passed to `from_pretrained`), or a Flair
`TransformerWordEmbeddings` lookup by name. -/
inductive Embedder where
  | hf (modelClass modelCheckpoint tokenizerClass tokenizerCheckpoint : String)
  | transformerWordEmbeddings (name : String)
deriving DecidableEq

/-- The checkpoint identifier the embedder's model was loaded from, when it
is a Huggingface pair. -/
def Embedder.checkpoint : Embedder → Option String
  | .hf _ ck _ _ => some ck
  | .transformerWordEmbeddings _ => none

namespace FlairEncoder

/-- `FlairEncoder.get_embedder`: three specially recognized technique names
build a Huggingface model/tokenizer pair; every other name falls back to
`TransformerWordEmbeddings(name)`.  The checkpoint strings are transcribed
exactly as they appear in the source. -/
def get_embedder (embedding : String) : Embedder :=
  if embedding = "transfo-xl-wt103" then
    .hf "TransfoXLModel" "transfo-xl-wt103" "TransfoXLTokenizer" "transfo-xl-wt103"
  else if embedding = "xlm-mlm-en-2048" then
    .hf "XLMModel" "transfo-xl-wt103" "XLMTokenizer" "transfo-xl-wt103"
  else if embedding = "xlnet-base-cased" then
    .hf "XLNetModel" "transfo-xl-wt103" "XLNetTokenizer" "transfo-xl-wt103"
  else .transformerWordEmbeddings embedding

end FlairEncoder

namespace GeneralEncoder

/-- `GeneralEncoder.get_embedder`: the abstract base method raises a
`ValueError`. -/
def get_embedder : Except PyError Embedder := .error (.valueError implMsg)

/-- `GeneralEncoder.create_embedding`: the abstract base method raises a
`ValueError` for every input. -/
def create_embedding (statement : String) (embedder : Embedder) :
    Except PyError (List (List (List ℚ))) :=
  .error (.valueError implMsg)

end GeneralEncoder

/-- Python's `s.split('/')` over the characters of `s`. -/
def splitOnSlash : List Char → List (List Char)
  | [] => [[]]
  | c :: cs =>
    if c = '/' then [] :: splitOnSlash cs
    else
      match splitOnSlash cs with
      | [] => [[c]]
      | h :: t => (c :: h) :: t

namespace GeneralEncoder

/-- `GeneralEncoder.get_embedding_dir`: if the technique name contains a
`'/'`, the directory is `embedding.split('/')[1]`, otherwise the name
itself.  Strings are modelled as character lists. -/
def get_embedding_dir (embedding : List Char) : List Char :=
  if '/' ∈ embedding then (splitOnSlash embedding).getD 1 [] else embedding

end GeneralEncoder

namespace FastTextEncoder

/-- `FastTextEncoder.get_embedding_dir`: the constant directory name
`"fasttext"`, whatever the embedding configuration value. -/
def get_embedding_dir (embedding : String) : String := "fasttext"

end FastTextEncoder

namespace Word2VecEncoder

/-- `Word2VecEncoder.get_embedding_dir`: the constant directory name
`"word2vec"`, whatever the embedding configuration value. -/
def get_embedding_dir (embedding : String) : String := "word2vec"

end Word2VecEncoder

/-! ### Helper lemmas: cache behaviour of `get_embedded_dataset` -/

/-- A cache hit returns the stored table unchanged, builds no model and
computes no embedding. -/
theorem hit_of_lookup {Emb : Type} (dirFn : String → String) (embedFn : String → Emb)
    (embedding : String) (df : List (String × String))
    (st : List (String × List (String × String × Emb))) (save : Bool)
    (t : List (String × String × Emb)) (h : st.lookup (dirFn embedding) = some t) :
    get_embedded_dataset dirFn embedFn embedding df st save = ⟨t, st, 0, false⟩ := by
  simp [get_embedded_dataset, h]

/-- After a call with `save = true`, the cache holds an artifact under the
technique's directory. -/
theorem lookup_state_after_save {Emb : Type} (dirFn : String → String) (embedFn : String → Emb)
    (embedding : String) (df : List (String × String))
    (st : List (String × List (String × String × Emb))) :
    ∃ t, ((get_embedded_dataset dirFn embedFn embedding df st true).state).lookup
        (dirFn embedding) = some t := by
  unfold get_embedded_dataset
  cases h : st.lookup (dirFn embedding) with
  | some stored => exact ⟨stored, by simp [h]⟩
  | none => exact ⟨df.map fun r => (r.1, r.2, embedFn r.1), by simp [h]⟩

/-- Any second call whose technique maps to the same cache directory as a
first persisted call performs no embedding computation and builds no
model. -/
theorem second_call_zero {Emb : Type} (dirFn : String → String) (embedFn : String → Emb)
    (e₁ e₂ : String) (df₁ df₂ : List (String × String))
    (st : List (String × List (String × String × Emb))) (save₂ : Bool)
    (h : dirFn e₁ = dirFn e₂) :
    (get_embedded_dataset dirFn embedFn e₂ df₂
        (get_embedded_dataset dirFn embedFn e₁ df₁ st true).state save₂).embedCalls = 0 ∧
    (get_embedded_dataset dirFn embedFn e₂ df₂
        (get_embedded_dataset dirFn embedFn e₁ df₁ st true).state save₂).builtModel = false := by
  obtain ⟨t, ht⟩ := lookup_state_after_save dirFn embedFn e₁ df₁ st
  rw [h] at ht
  rw [hit_of_lookup dirFn embedFn e₂ df₂ _ save₂ t ht]
  exact ⟨rfl, rfl⟩

/-- Claim C3: if the cache artifact directory for the technique's key is
present (with its stored table) in the cache state, `get_embedded_dataset`
returns the stored table with zero embedding computations and without
building a backend model, leaving the state unchanged; and a second call
with the same table and technique after a persisted first call performs
zero additional embedding computation and builds no model. -/
theorem get_embedded_dataset_cache_hit_idempotent {Emb : Type}
    (dirFn : String → String) (embedFn : String → Emb) (embedding : String)
    (df₁ df₂ : List (String × String))
    (st st₂ : List (String × List (String × String × Emb))) (save : Bool)
    (stored : List (String × String × Emb))
    (h : st.lookup (dirFn embedding) = some stored) :
    get_embedded_dataset dirFn embedFn embedding df₁ st save = ⟨stored, st, 0, false⟩ ∧
    (get_embedded_dataset dirFn embedFn embedding df₂
        (get_embedded_dataset dirFn embedFn embedding df₁ st₂ true).state true).embedCalls = 0 ∧
    (get_embedded_dataset dirFn embedFn embedding df₂
        (get_embedded_dataset dirFn embedFn embedding df₁ st₂ true).state true).builtModel = false := by
  refine ⟨hit_of_lookup dirFn embedFn embedding df₁ st save stored h, ?_⟩
  exact second_call_zero dirFn embedFn embedding embedding df₁ df₂ st₂ true rfl

/-- Witness for C3 at a concrete cache state containing the key `"k"`. -/
theorem get_embedded_dataset_cache_hit_idempotent_witness :
    get_embedded_dataset (fun s => s) (fun _ => (0 : Nat)) "k" [("n", "class")]
        [("k", [("m", "class", 7)])] true
      = ⟨[("m", "class", 7)], [("k", [("m", "class", 7)])], 0, false⟩ ∧
    (get_embedded_dataset (fun s => s) (fun _ => (0 : Nat)) "k" [("n", "class")]
        (get_embedded_dataset (fun s => s) (fun _ => (0 : Nat)) "k" [("n", "class")] [] true).state
        true).embedCalls = 0 ∧
    (get_embedded_dataset (fun s => s) (fun _ => (0 : Nat)) "k" [("n", "class")]
        (get_embedded_dataset (fun s => s) (fun _ => (0 : Nat)) "k" [("n", "class")] [] true).state
        true).builtModel = false :=
  get_embedded_dataset_cache_hit_idempotent (fun s => s) (fun _ => (0 : Nat)) "k"
    [("n", "class")] [("n", "class")] [("k", [("m", "class", 7)])] [] true
    [("m", "class", 7)] rfl

/-! ### C7: checkpoint selection in `FlairEncoder.get_embedder` -/

/-- Claim C7 names a code bug: for the recognized technique names
`"xlm-mlm-en-2048"` and `"xlnet-base-cased"` the source loads the model and
tokenizer from the pretrained checkpoint `"transfo-xl-wt103"`, not from the
checkpoint named by the technique; only the `"transfo-xl-wt103"` branch and
the generic fallback behave as the claim states. -/
theorem flair_get_embedder_checkpoint_bug :
    FlairEncoder.get_embedder "xlm-mlm-en-2048"
      = Embedder.hf "XLMModel" "transfo-xl-wt103" "XLMTokenizer" "transfo-xl-wt103" ∧
    (FlairEncoder.get_embedder "xlm-mlm-en-2048").checkpoint ≠ some "xlm-mlm-en-2048" ∧
    FlairEncoder.get_embedder "xlnet-base-cased"
      = Embedder.hf "XLNetModel" "transfo-xl-wt103" "XLNetTokenizer" "transfo-xl-wt103" ∧
    (FlairEncoder.get_embedder "xlnet-base-cased").checkpoint ≠ some "xlnet-base-cased" ∧
    (FlairEncoder.get_embedder "transfo-xl-wt103").checkpoint = some "transfo-xl-wt103" ∧
    FlairEncoder.get_embedder "bert-base-uncased"
      = Embedder.transformerWordEmbeddings "bert-base-uncased" := by
  refine ⟨rfl, ?_, rfl, ?_, rfl, rfl⟩ <;> decide

/-! ### C9: abstract base methods of `GeneralEncoder` -/

/-- Counterexample to claim C9: the abstract base methods do not raise
`NotImplementedError`; they raise a `ValueError`. -/
theorem general_encoder_not_notimplemented_cex :
    raisesNotImplementedError GeneralEncoder.get_embedder = false ∧
    raisesNotImplementedError
      (GeneralEncoder.create_embedding "speed"
        (Embedder.transformerWordEmbeddings "bert-base-uncased")) = false ∧
    GeneralEncoder.get_embedder = Except.error (PyError.valueError implMsg) :=
  ⟨rfl, rfl, rfl⟩

/-- Claim C9 as amended: invoking the abstract backend methods on the base
encoder fails, for every input, with a `ValueError` saying the function
should be implemented in the children encoders. -/
theorem general_encoder_methods_raise_valueerror (statement : String) (embedder : Embedder) :
    raisesValueError GeneralEncoder.get_embedder = true ∧
    raisesValueError (GeneralEncoder.create_embedding statement embedder) = true ∧
    GeneralEncoder.get_embedder = Except.error (PyError.valueError implMsg) ∧
    GeneralEncoder.create_embedding statement embedder
      = Except.error (PyError.valueError implMsg) :=
  ⟨rfl, rfl, rfl, rfl⟩

/-! ### C10: constant cache directories of the FastText / Word2Vec backends -/

/-- Claim C10: the FastText and Word2Vec backends use the fixed cache
directory names `"fasttext"` and `"word2vec"` for every configuration
value, so two runs with different configurations but the same backend
share one cache artifact — in particular a second run keyed by a different
configuration performs no embedding computation after a persisted first
run. -/
theorem fasttext_word2vec_constant_cache_dir {Emb : Type} (e₁ e₂ : String)
    (embedFn : String → Emb) (df₁ df₂ : List (String × String))
    (st : List (String × List (String × String × Emb))) :
    FastTextEncoder.get_embedding_dir e₁ = "fasttext" ∧
    Word2VecEncoder.get_embedding_dir e₁ = "word2vec" ∧
    FastTextEncoder.get_embedding_dir e₁ = FastTextEncoder.get_embedding_dir e₂ ∧
    Word2VecEncoder.get_embedding_dir e₁ = Word2VecEncoder.get_embedding_dir e₂ ∧
    (get_embedded_dataset FastTextEncoder.get_embedding_dir embedFn e₂ df₂
        (get_embedded_dataset FastTextEncoder.get_embedding_dir embedFn e₁ df₁ st true).state
        true).embedCalls = 0 ∧
    (get_embedded_dataset Word2VecEncoder.get_embedding_dir embedFn e₂ df₂
        (get_embedded_dataset Word2VecEncoder.get_embedding_dir embedFn e₁ df₁ st true).state
        true).embedCalls = 0 :=
  ⟨rfl, rfl, rfl, rfl,
    (second_call_zero FastTextEncoder.get_embedding_dir embedFn e₁ e₂ df₁ df₂ st true rfl).1,
    (second_call_zero Word2VecEncoder.get_embedding_dir embedFn e₁ e₂ df₁ df₂ st true rfl).1⟩

/-! ### C8: the cache key strips the namespace prefix -/

/-- `splitOnSlash` never returns an empty list of segments. -/
theorem splitOnSlash_ne_nil (s : List Char) : splitOnSlash s ≠ [] := by
  induction s with
  | nil => simp [splitOnSlash]
  | cons c cs ih =>
    unfold splitOnSlash
    by_cases h : c = '/'
    · simp [h]
    · rw [if_neg h]
      rcases hsp : splitOnSlash cs with _ | ⟨hd, tl⟩ <;> simp

/-- The first segment of `splitOnSlash` is the run of characters before the
first `'/'`. -/
theorem splitOnSlash_head (s : List Char) :
    ∃ t, splitOnSlash s = (s.takeWhile fun c => !(c == '/')) :: t := by
  induction s with
  | nil => exact ⟨[], rfl⟩
  | cons c cs ih =>
    by_cases h : c = '/'
    · subst h
      exact ⟨splitOnSlash cs, by simp [splitOnSlash]⟩
    · obtain ⟨t, hts⟩ := ih
      refine ⟨t, ?_⟩
      unfold splitOnSlash
      rw [if_neg h, hts]
      simp [List.takeWhile_cons, h]

/-- Splitting a string whose prefix contains no `'/'`: the prefix is the
first segment and the rest is split on its own. -/
theorem splitOnSlash_append (pre post : List Char) (h : '/' ∉ pre) :
    splitOnSlash (pre ++ '/' :: post) = pre :: splitOnSlash post := by
  induction pre with
  | nil => simp [splitOnSlash]
  | cons c cs ih =>
    simp only [List.mem_cons, not_or] at h
    have hc : ¬c = '/' := fun hc => h.1 hc.symm
    have hrest := ih h.2
    simp only [List.cons_append, splitOnSlash, if_neg hc]
    rw [List.append_eq, hrest]

/-- Claim C8: if the technique name has the form `pre ++ "/" ++ post` with
no `'/'` in `pre`, the cache key is the segment of `post` before its first
`'/'` (i.e. the segment right after the first separator); a name without a
`'/'` is its own key. -/
theorem get_embedding_dir_strips_namespace (pre post s : List Char)
    (h1 : '/' ∉ pre) (h2 : '/' ∉ s) :
    GeneralEncoder.get_embedding_dir (pre ++ '/' :: post)
        = post.takeWhile (fun c => !(c == '/')) ∧
    GeneralEncoder.get_embedding_dir s = s := by
  constructor
  · unfold GeneralEncoder.get_embedding_dir
    rw [if_pos (by simp), splitOnSlash_append pre post h1]
    obtain ⟨t, htp⟩ := splitOnSlash_head post
    rw [htp]
    rfl
  · unfold GeneralEncoder.get_embedding_dir
    rw [if_neg h2]

/-- Witness for C8 on the technique name `"EleutherAI/gpt-neo-1.3B"` (key
`"gpt-neo-1.3B"`) and on the slash-free name `"gpt2"`. -/
theorem get_embedding_dir_strips_namespace_witness :
    GeneralEncoder.get_embedding_dir
        (['E', 'l', 'e', 'u', 't', 'h', 'e', 'r', 'A', 'I'] ++ '/' ::
          ['g', 'p', 't', '-', 'n', 'e', 'o', '-', '1', '.', '3', 'B'])
      = List.takeWhile (fun c => !(c == '/'))
          ['g', 'p', 't', '-', 'n', 'e', 'o', '-', '1', '.', '3', 'B'] ∧
    GeneralEncoder.get_embedding_dir ['g', 'p', 't', '2'] = ['g', 'p', 't', '2'] :=
  get_embedding_dir_strips_namespace
    ['E', 'l', 'e', 'u', 't', 'h', 'e', 'r', 'A', 'I']
    ['g', 'p', 't', '-', 'n', 'e', 'o', '-', '1', '.', '3', 'B']
    ['g', 'p', 't', '2'] (by decide) (by decide)

/-! ### Helper lemmas: string comparison and the model of `np.unique` -/

/-- `Char` comparison is comparison of code points. -/
theorem char_lt_iff_toNat_lt (c d : Char) : c < d ↔ c.toNat < d.toNat := Iff.rfl

/-- Two characters with equal code points are equal. -/
theorem char_eq_of_not_toNat_lt (c d : Char) (h1 : ¬c.toNat < d.toNat)
    (h2 : ¬d.toNat < c.toNat) : c = d :=
  Char.ext (UInt32.toNat.inj (Nat.le_antisymm (Nat.le_of_not_lt h2) (Nat.le_of_not_lt h1)))

/-- The executable character-list comparison agrees with the lexicographic
order. -/
theorem charListLt_iff (l₁ l₂ : List Char) :
    charListLt l₁ l₂ = true ↔ List.Lex (· < ·) l₁ l₂ := by
  induction l₁ generalizing l₂ with
  | nil =>
    cases l₂ with
    | nil =>
      constructor
      · intro h; simp [charListLt] at h
      · intro h; cases h
    | cons d ds =>
      simp only [charListLt]
      exact ⟨fun _ => List.Lex.nil, fun _ => trivial⟩
  | cons c cs ih =>
    cases l₂ with
    | nil =>
      constructor
      · intro h; simp [charListLt] at h
      · intro h; cases h
    | cons d ds =>
      by_cases h1 : c.toNat < d.toNat
      · simp only [charListLt, if_pos h1]
        exact ⟨fun _ => List.Lex.rel ((char_lt_iff_toNat_lt c d).mpr h1), fun _ => trivial⟩
      · by_cases h2 : d.toNat < c.toNat
        · simp only [charListLt, if_neg h1, if_pos h2]
          constructor
          · intro h; cases h
          · intro h
            cases h with
            | cons htl => exact absurd h2 (Nat.lt_irrefl _)
            | rel hcd => exact absurd ((char_lt_iff_toNat_lt c d).mp hcd) h1
        · have hcd : c = d := char_eq_of_not_toNat_lt c d h1 h2
          subst hcd
          simp only [charListLt, if_neg h1, if_neg h2]
          rw [ih ds]
          constructor
          · intro h; exact List.Lex.cons h
          · intro h
            cases h with
            | cons htl => exact htl
            | rel hcc => exact absurd ((char_lt_iff_toNat_lt c c).mp hcc) (Nat.lt_irrefl _)

/-- The executable string comparison agrees with the string order. -/
theorem strLt_iff (x y : String) : strLt x y = true ↔ x < y := by
  rw [String.lt_iff_toList_lt]
  exact charListLt_iff x.data y.data

/-- Membership in `insertUnique`. -/
theorem mem_insertUnique (x a : String) (l : List String) :
    a ∈ insertUnique x l ↔ a = x ∨ a ∈ l := by
  induction l with
  | nil => simp [insertUnique]
  | cons y ys ih =>
    unfold insertUnique
    by_cases h1 : strLt x y
    · rw [if_pos h1]
      simp only [List.mem_cons]
    · rw [if_neg h1]
      by_cases h2 : x == y
      · rw [if_pos h2]
        have hxy : x = y := eq_of_beq h2
        subst hxy
        simp only [List.mem_cons]
        tauto
      · rw [if_neg h2]
        simp only [List.mem_cons, ih]
        tauto

/-- `insertUnique` preserves strict sortedness. -/
theorem sorted_insertUnique (x : String) (l : List String)
    (h : List.Sorted (· < ·) l) : List.Sorted (· < ·) (insertUnique x l) := by
  induction l with
  | nil => simp [insertUnique]
  | cons y ys ih =>
    rw [List.sorted_cons] at h
    unfold insertUnique
    by_cases h1 : strLt x y
    · rw [if_pos h1, List.sorted_cons]
      have hxy : x < y := (strLt_iff x y).mp h1
      refine ⟨?_, List.sorted_cons.mpr h⟩
      intro b hb
      rcases List.mem_cons.mp hb with rfl | hb
      · exact hxy
      · exact lt_trans hxy (h.1 b hb)
    · rw [if_neg h1]
      by_cases h2 : x == y
      · rw [if_pos h2]
        exact List.sorted_cons.mpr h
      · rw [if_neg h2, List.sorted_cons]
        have hyx : y < x := by
          rcases lt_trichotomy x y with hlt | heq | hgt
          · exact absurd ((strLt_iff x y).mpr hlt) h1
          · exact absurd (beq_iff_eq.mpr heq) h2
          · exact hgt
        refine ⟨?_, ih h.2⟩
        intro b hb
        rcases (mem_insertUnique x b ys).mp hb with rfl | hb
        · exact hyx
        · exact h.1 b hb

/-- The model of `np.unique` returns a strictly sorted list. -/
theorem sorted_npUnique (l : List String) : List.Sorted (· < ·) (npUnique l) := by
  induction l with
  | nil => simp [npUnique]
  | cons x xs ih => exact sorted_insertUnique x (npUnique xs) ih

/-- The model of `np.unique` keeps exactly the elements of its input. -/
theorem mem_npUnique (a : String) (l : List String) : a ∈ npUnique l ↔ a ∈ l := by
  induction l with
  | nil => simp [npUnique]
  | cons x xs ih =>
    show a ∈ insertUnique x (npUnique xs) ↔ _
    rw [mem_insertUnique, ih, List.mem_cons]

/-- The model of `np.unique` returns a duplicate-free list. -/
theorem nodup_npUnique (l : List String) : (npUnique l).Nodup :=
  (sorted_npUnique l).imp ne_of_lt

/-! ### C2: shape of the combined loader table -/

/-- Claim C2: for every input dataset the combined table is the
deduplicated, lexicographically sorted class names tagged `"class"`,
followed by the deduplicated, lexicographically sorted attribute names
tagged `"attribute"`; and on the spec's worked example it is exactly
`[("Bike", "class"), ("Car", "class"), ("speed", "attribute")]`. -/
theorem get_df_from_data_sorted_dedup_tagged (data : List (String × Doc)) :
    (∃ cs as : List String,
      get_df_from_data (get_cleaned_data data)
          = cs.map (fun x => (x, "class")) ++ as.map (fun x => (x, "attribute")) ∧
      List.Sorted (· < ·) cs ∧ cs.Nodup ∧
      List.Sorted (· < ·) as ∧ as.Nodup ∧
      (∀ x, x ∈ cs ↔
        x ∈ ((get_cleaned_data data).filterMap fun p => p.2.classes).flatten) ∧
      (∀ x, x ∈ as ↔
        x ∈ ((get_cleaned_data data).filterMap fun p => p.2.attributes).flatten)) ∧
    get_df_from_data (get_cleaned_data exampleData)
      = [("Bike", "class"), ("Car", "class"), ("speed", "attribute")] := by
  refine ⟨⟨_, _, rfl, sorted_npUnique _, nodup_npUnique _, sorted_npUnique _,
    nodup_npUnique _, fun x => mem_npUnique x _, fun x => mem_npUnique x _⟩, ?_⟩
  decide

/-! ### C4: duplicate names across the class/attribute tag groups -/

/-- Counterexample to claim C4: on an input where the name `"speed"` occurs
both in a document's classes and in a document's attributes, the combined
table's name column contains `"speed"` twice. -/
theorem table_name_column_duplicate_cex :
    get_df_from_data (get_cleaned_data dataBoth)
      = [("speed", "class"), ("speed", "attribute")] ∧
    ¬((get_df_from_data (get_cleaned_data dataBoth)).map Prod.fst).Nodup := by
  constructor
  · decide
  · decide

/-- Claim C4 as amended: within each tag group of the combined table the
names are duplicate-free — the class-tagged rows carry pairwise distinct
names, and so do the attribute-tagged rows (a name occurring both as a
class and as an attribute yields one row in each group, hence two rows
with that name overall). -/
theorem table_names_nodup_within_type (data : List (String × Doc)) :
    (((get_df_from_data (get_cleaned_data data)).filter fun r => r.2 == "class").map
        Prod.fst).Nodup ∧
    (((get_df_from_data (get_cleaned_data data)).filter fun r => r.2 == "attribute").map
        Prod.fst).Nodup := by
  unfold get_df_from_data
  rw [List.filter_append, List.filter_append]
  have hclass_self :
      ∀ l : List String, (l.map fun x => (x, "class")).filter (fun r => r.2 == "class")
        = l.map fun x => (x, "class") := by
    intro l
    apply List.filter_eq_self.mpr
    intro a ha
    rcases List.mem_map.mp ha with ⟨x, _, rfl⟩
    rfl
  have hattr_self :
      ∀ l : List String, (l.map fun x => (x, "attribute")).filter (fun r => r.2 == "attribute")
        = l.map fun x => (x, "attribute") := by
    intro l
    apply List.filter_eq_self.mpr
    intro a ha
    rcases List.mem_map.mp ha with ⟨x, _, rfl⟩
    rfl
  have hattr_none :
      ∀ l : List String, (l.map fun x => (x, "attribute")).filter (fun r => r.2 == "class")
        = [] := by
    intro l
    apply List.filter_eq_nil_iff.mpr
    intro a ha
    rcases List.mem_map.mp ha with ⟨x, _, rfl⟩
    simp
  have hclass_none :
      ∀ l : List String, (l.map fun x => (x, "class")).filter (fun r => r.2 == "attribute")
        = [] := by
    intro l
    apply List.filter_eq_nil_iff.mpr
    intro a ha
    rcases List.mem_map.mp ha with ⟨x, _, rfl⟩
    simp
  rw [hclass_self, hattr_self, hattr_none, hclass_none, List.append_nil, List.nil_append,
    List.map_map, List.map_map]
  rw [show (Prod.fst ∘ fun x : String => (x, "class")) = id from rfl,
    show (Prod.fst ∘ fun x : String => (x, "attribute")) = id from rfl,
    List.map_id, List.map_id]
  exact ⟨nodup_npUnique _, nodup_npUnique _⟩

/-! ### C5: the language filter -/

/-- Counterexample to claim C5: a document whose `lang` is the plain string
`"en"` is dropped by `get_cleaned_data` (so its names never reach the
table), while a document whose `lang` is `"__label__en"` — not equal to
`"en"` — is kept; the claim-side filter `cleanedSpecEn` disagrees with the
code on both inputs. -/
theorem cleaned_data_lang_en_cex :
    get_cleaned_data dataEn = [] ∧
    get_df_from_data (get_cleaned_data dataEn) = [] ∧
    cleanedSpecEn dataEn = dataEn ∧
    get_cleaned_data dataLbl = dataLbl ∧
    cleanedSpecEn dataLbl = [] ∧
    get_cleaned_data dataEn ≠ cleanedSpecEn dataEn ∧
    get_cleaned_data dataLbl ≠ cleanedSpecEn dataLbl := by
  decide

/-- Claim C5 as amended: the Loader keeps exactly the documents whose
`lang` field equals the string `"__label__en"` (by string equality), and
every name appearing in the resulting table comes from the classes or
attributes of some document with that `lang` value — names from documents
with any other `lang` value never appear. -/
theorem cleaned_data_label_en_amended (data : List (String × Doc))
    (p : String × Doc) (x ty : String)
    (hmem : (x, ty) ∈ get_df_from_data (get_cleaned_data data)) :
    (p ∈ get_cleaned_data data ↔ p ∈ data ∧ p.2.lang = "__label__en") ∧
    (data.any fun d => d.2.lang == "__label__en"
        && ((d.2.classes.getD []).contains x || (d.2.attributes.getD []).contains x)) = true := by
  constructor
  · simp [get_cleaned_data, List.mem_filter]
  · unfold get_df_from_data at hmem
    rw [List.any_eq_true]
    rcases List.mem_append.mp hmem with h | h
    · rcases List.mem_map.mp h with ⟨a, ha, heq⟩
      have hax : a = x := congrArg Prod.fst heq
      subst hax
      have hx := (mem_npUnique a _).mp ha
      rcases List.mem_flatten.mp hx with ⟨cl, hcl, hxcl⟩
      rcases List.mem_filterMap.mp hcl with ⟨q, hq, hcls⟩
      unfold get_cleaned_data at hq
      rw [List.mem_filter] at hq
      refine ⟨q, hq.1, ?_⟩
      rw [Bool.and_eq_true]
      refine ⟨hq.2, ?_⟩
      have hcls' : q.2.classes = some cl := hcls
      simp [hcls', hxcl]
    · rcases List.mem_map.mp h with ⟨a, ha, heq⟩
      have hax : a = x := congrArg Prod.fst heq
      subst hax
      have hx := (mem_npUnique a _).mp ha
      rcases List.mem_flatten.mp hx with ⟨cl, hcl, hxcl⟩
      rcases List.mem_filterMap.mp hcl with ⟨q, hq, hcls⟩
      unfold get_cleaned_data at hq
      rw [List.mem_filter] at hq
      refine ⟨q, hq.1, ?_⟩
      rw [Bool.and_eq_true]
      refine ⟨hq.2, ?_⟩
      have hcls' : q.2.attributes = some cl := hcls
      simp [hcls', hxcl]

/-- Witness for the amended C5 on the worked example: the row
`("Bike", "class")` is in the table, and `"Bike"` indeed comes from a
document tagged `"__label__en"`. -/
theorem cleaned_data_label_en_amended_witness :
    (("a", exampleDoc) ∈ get_cleaned_data exampleData ↔
      ("a", exampleDoc) ∈ exampleData ∧ exampleDoc.lang = "__label__en") ∧
    (exampleData.any fun d => d.2.lang == "__label__en"
        && ((d.2.classes.getD []).contains "Bike"
          || (d.2.attributes.getD []).contains "Bike")) = true :=
  cleaned_data_label_en_amended exampleData ("a", exampleDoc) "Bike" "class" (by decide)

/-! ### Helper lemmas: transposition and pooling -/

/-- `npTranspose` of a non-empty rectangular array, with the row length
made explicit. -/
theorem npTranspose_rect (m : List (List ℚ)) (dims : Nat) (hm : m ≠ [])
    (h : ∀ r ∈ m, r.length = dims) :
    npTranspose m = (List.range dims).map fun d => m.map fun r => r.getD d 0 := by
  rcases m with _ | ⟨r, rs⟩
  · cases hm rfl
  · unfold npTranspose
    rw [List.headD_cons, h r (List.mem_cons_self r rs)]

/-- Indexing a map over `List.range`. -/
theorem getD_range_map {α : Type} (f : Nat → α) (dflt : α) (n d : Nat) (h : d < n) :
    ((List.range n).map f).getD d dflt = f d := by
  rw [List.getD_eq_get?, List.get?_map, List.get?_range h]
  rfl

/-- Reducing the transpose of one rectangular sentence: entry `d` is the
reduction of all tokens' value at dimension `d`. -/
theorem transpose_map_single (op : List ℚ → ℚ) (s : List (List ℚ)) (dims : Nat)
    (h0 : s ≠ []) (hd : ∀ t ∈ s, t.length = dims) :
    (npTranspose s).map op
      = (List.range dims).map fun d => op (s.map fun t => t.getD d 0) := by
  rw [npTranspose_rect s dims h0 hd, List.map_map]
  rfl

/-- The two-stage reduction: entry `d` of the document-level reduction is
the reduction of the per-sentence reductions at dimension `d`. -/
theorem transpose_map_multi (op : List ℚ → ℚ) (vector : List (List (List ℚ))) (dims : Nat)
    (hne : vector ≠ []) (hs : ∀ s ∈ vector, s ≠ [])
    (hd : ∀ s ∈ vector, ∀ t ∈ s, t.length = dims) :
    (npTranspose (vector.map fun s => (npTranspose s).map op)).map op
      = (List.range dims).map fun d =>
          op (vector.map fun s => op (s.map fun t => t.getD d 0)) := by
  have hrect : ∀ r ∈ vector.map (fun s => (npTranspose s).map op), r.length = dims := by
    intro r hr
    rcases List.mem_map.mp hr with ⟨s, hsmem, rfl⟩
    rw [transpose_map_single op s dims (hs s hsmem) (fun t ht => hd s hsmem t ht)]
    simp
  have hmne : vector.map (fun s => (npTranspose s).map op) ≠ [] := by
    simp only [ne_eq, List.map_eq_nil_iff]
    exact hne
  rw [npTranspose_rect _ dims hmne hrect, List.map_map]
  refine List.map_congr_left ?_
  intro d hdmem
  have hdlt : d < dims := List.mem_range.mp hdmem
  show op ((vector.map fun s => (npTranspose s).map op).map fun r => r.getD d 0) = _
  rw [List.map_map]
  congr 1
  refine List.map_congr_left ?_
  intro s hsmem
  show ((npTranspose s).map op).getD d 0 = op (s.map fun t => t.getD d 0)
  rw [transpose_map_single op s dims (hs s hsmem) (fun t ht => hd s hsmem t ht),
    getD_range_map _ _ _ _ hdlt]

/-- `poolWith` on a single rectangular non-empty sentence. -/
theorem poolWith_single (op : List ℚ → ℚ) (v0 : List (List ℚ)) (dims : Nat)
    (h0 : v0 ≠ []) (hd : ∀ t ∈ v0, t.length = dims) :
    poolWith op [v0]
      = Except.ok ((List.range dims).map fun d => op (v0.map fun t => t.getD d 0)) := by
  unfold poolWith
  rw [if_neg (by simp)]
  exact congrArg Except.ok (transpose_map_single op v0 dims h0 hd)

/-- `poolWith` on several rectangular non-empty sentences. -/
theorem poolWith_multi (op : List ℚ → ℚ) (vector : List (List (List ℚ))) (dims : Nat)
    (hlen : 1 < vector.length) (hs : ∀ s ∈ vector, s ≠ [])
    (hd : ∀ s ∈ vector, ∀ t ∈ s, t.length = dims) :
    poolWith op vector
      = Except.ok ((List.range dims).map fun d =>
          op (vector.map fun s => op (s.map fun t => t.getD d 0))) := by
  have hne : vector ≠ [] := by
    intro hc
    subst hc
    simp at hlen
  unfold poolWith
  rw [if_pos hlen]
  exact congrArg Except.ok (transpose_map_multi op vector dims hne hs hd)

/-! ### C1: the two pooling stages -/

/-- Claim C1: for each pooling technique in max/min/average and every
record whose embedding is a non-empty list of non-empty sentences of
equal-dimension token vectors, the pooled result is the claimed
per-dimension reduction — directly over the tokens for a single sentence,
and over the per-sentence reductions (same operator at both stages) for
several sentences (`specPooling` transcribes that reading of the spec);
`apply_pooling` replaces the record's embedding with this vector, and max
pooling of `[[[1,5],[3,2]]]` yields `[3,5]`. -/
theorem apply_pooling_pooling_two_stage (technique : String)
    (vector : List (List (List ℚ))) (dims : Nat) (nm ty : String)
    (ht : technique = "max" ∨ technique = "min" ∨ technique = "average")
    (hne : vector ≠ [])
    (hs : (vector.all fun s => !s.isEmpty) = true)
    (hd : (vector.all fun s => s.all fun t => t.length == dims) = true) :
    pooling technique vector = Except.ok (specPooling technique vector) ∧
    (specPooling technique vector).length = dims ∧
    apply_pooling technique [⟨nm, ty, vector⟩]
      = PoolResult.ok [⟨nm, ty, specPooling technique vector⟩] ∧
    pooling "max" [[[1, 5], [3, 2]]] = Except.ok [3, 5] := by
  have hs' : ∀ s ∈ vector, s ≠ [] := by
    intro s hsm
    have hall := (List.all_eq_true.mp hs) s hsm
    intro hc
    subst hc
    simp at hall
  have hd' : ∀ s ∈ vector, ∀ t ∈ s, t.length = dims := by
    intro s hsm t htm
    have h1 := (List.all_eq_true.mp hd) s hsm
    have h2 := (List.all_eq_true.mp h1) t htm
    exact eq_of_beq h2
  have hvd : ((vector.headD []).headD []).length = dims := by
    rcases vector with _ | ⟨v0, rest⟩
    · cases hne rfl
    · have h0 : v0 ≠ [] := hs' v0 (List.mem_cons_self v0 rest)
      rcases v0 with _ | ⟨t0, ts⟩
      · cases h0 rfl
      · simpa using hd' (t0 :: ts) (List.mem_cons_self _ _) t0 (List.mem_cons_self t0 ts)
  obtain ⟨op, hpool, hspec⟩ :
      ∃ op : List ℚ → ℚ,
        pooling technique vector = poolWith op vector ∧ specReduce technique = op := by
    rcases ht with rfl | rfl | rfl
    · exact ⟨reduceMax, by simp [pooling], by funext l; simp [specReduce]⟩
    · exact ⟨reduceMin, by simp [pooling], by funext l; simp [specReduce]⟩
    · exact ⟨npAverage, by simp [pooling], by funext l; simp [specReduce]⟩
  have hmain : pooling technique vector = Except.ok (specPooling technique vector) := by
    rw [hpool]
    unfold specPooling
    simp only [hspec]
    rcases vector with _ | ⟨v0, rest⟩
    · cases hne rfl
    rcases rest with _ | ⟨v1, rs⟩
    · rw [poolWith_single op v0 dims (hs' v0 (List.mem_cons_self v0 []))
        (fun t ht => hd' v0 (List.mem_cons_self v0 []) t ht)]
      simp only [List.headD_cons] at hvd ⊢
      rw [hvd]
      simp
    · have hlen : 1 < (v0 :: v1 :: rs).length := by
        simp only [List.length_cons]
        omega
      have hne1 : ¬((v0 :: v1 :: rs).length = 1) := by
        simp only [List.length_cons]
        omega
      rw [poolWith_multi op _ dims hlen hs' hd']
      simp only [List.headD_cons] at hvd ⊢
      rw [hvd]
      simp only [if_neg hne1]
  have hlength : (specPooling technique vector).length = dims := by
    unfold specPooling
    rw [List.length_map, List.length_range, hvd]
  have happ : apply_pooling technique [⟨nm, ty, vector⟩]
      = PoolResult.ok [⟨nm, ty, specPooling technique vector⟩] := by
    unfold apply_pooling poolColumn
    rw [hmain]
    rfl
  exact ⟨hmain, hlength, happ, by rfl⟩

/-- Witness for C1 at the spec's worked example (one sentence, two
two-dimensional tokens, max pooling). -/
theorem apply_pooling_pooling_two_stage_witness :
    pooling "max" [[[1, 5], [3, 2]]]
      = Except.ok (specPooling "max" [[[1, 5], [3, 2]]]) ∧
    (specPooling "max" [[[1, 5], [3, 2]]]).length = 2 ∧
    apply_pooling "max" [⟨"car wheel", "attribute", [[[1, 5], [3, 2]]]⟩]
      = PoolResult.ok [⟨"car wheel", "attribute", specPooling "max" [[[1, 5], [3, 2]]]⟩] ∧
    pooling "max" [[[1, 5], [3, 2]]] = Except.ok [3, 5] :=
  apply_pooling_pooling_two_stage "max" [[[1, 5], [3, 2]]] 2 "car wheel" "attribute"
    (Or.inl rfl) (by decide) (by decide) (by decide)

/-! ### C6: unsupported pooling techniques -/

/-- Counterexample to claim C6 as universally stated: on an *empty* table
the column map never invokes `pooling`, so `apply_pooling "median"` raises
no error at all — it returns the empty table unchanged instead of failing. -/
theorem apply_pooling_median_empty_cex :
    apply_pooling "median" [] = PoolResult.ok [] := rfl

/-- Claim C6 as amended: for every *non-empty* table and every technique
name outside max/min/average (for example `"median"`), `apply_pooling`
fails with the unsupported-technique `ValueError` (the spec's
`UnsupportedTechniqueError`) and returns the input table unmodified; an
empty table succeeds trivially with no change. -/
theorem apply_pooling_unsupported_err (technique : String) (df : List RawRow)
    (h1 : technique ≠ "max") (h2 : technique ≠ "min") (h3 : technique ≠ "average")
    (hne : df ≠ []) :
    apply_pooling technique df = PoolResult.err df (PyError.valueError poolMsg) := by
  rcases df with _ | ⟨r, rs⟩
  · cases hne rfl
  · have hp : pooling technique r.embedding
        = Except.error (PyError.valueError poolMsg) := by
      unfold pooling
      rw [if_neg h1, if_neg h2, if_neg h3]
    unfold apply_pooling poolColumn
    rw [hp]

/-- Witness for the amended C6: `"median"` pooling on a one-row table
fails with the `ValueError` and leaves the row as it was. -/
theorem apply_pooling_unsupported_err_witness :
    ("median" : String) ≠ "max" ∧ ("median" : String) ≠ "min" ∧
    ("median" : String) ≠ "average" ∧
    ([(⟨"Car", "class", [[[1, 5], [3, 2]]]⟩ : RawRow)] ≠ []) ∧
    apply_pooling "median" [⟨"Car", "class", [[[1, 5], [3, 2]]]⟩]
      = PoolResult.err [⟨"Car", "class", [[[1, 5], [3, 2]]]⟩]
          (PyError.valueError poolMsg) :=
  ⟨by decide, by decide, by decide, by decide,
    apply_pooling_unsupported_err "median" [⟨"Car", "class", [[[1, 5], [3, 2]]]⟩]
      (by decide) (by decide) (by decide) (by decide)⟩
